import Mathlib

/-!
Verification development for the Finaura Pro paper-trading server
(`server.py`). The Python code is shallowly embedded over exact
rationals: SQLite tables become Lean lists/records, Python dicts become
association lists with Python insertion semantics, and `round(x, 2)`
becomes an exact round-half-to-even on rationals.
-/

namespace Finaura

/-- Model of Python `round(x, 2)`'s integer step: round half to even. -/
def roundHalfEven (x : ℚ) : ℤ :=
  let n : ℤ := ⌊x⌋
  let f : ℚ := x - (n : ℚ)
  if f < 1 / 2 then n
  else if 1 / 2 < f then n + 1
  else if n % 2 = 0 then n else n + 1

/-- Model of Python `round(x, 2)`: round to 2 decimal places, ties to even. -/
def round2 (x : ℚ) : ℚ := (roundHalfEven (x * 100) : ℚ) / 100

/-- A normalized quote record, one per symbol, exactly the dict literal both
adapters build: keys `symbol, price, change, changePercent, volume, high,
low, open, prevClose` (`open` is rendered as `openPrice`). -/
structure Quote where
  symbol : String
  price : ℚ
  change : ℚ
  changePercent : ℚ
  volume : ℤ
  high : ℚ
  low : ℚ
  openPrice : ℚ
  prevClose : ℚ
deriving DecidableEq

/-- Association-list lookup: first entry wins, as for a Python dict /
`fetchone` on a UNIQUE-keyed table. -/
def alookup {α : Type} : List (String × α) → String → Option α
  | [], _ => none
  | e :: rest, s => if e.1 = s then some e.2 else alookup rest s

/-- Python dict assignment `d[k] = v`: replace the value in place if the key
exists (keeping its slot), else append the new pair. -/
def dictInsert {α : Type} : List (String × α) → String → α → List (String × α)
  | [], k, v => [(k, v)]
  | e :: rest, k, v => if e.1 = k then (k, v) :: rest else e :: dictInsert rest k v

/-- Python `base.update(snapshot)`: write every pair of `snapshot` into
`base`, in order. -/
def dictUpdate {α : Type} (base snapshot : List (String × α)) : List (String × α) :=
  snapshot.foldl (fun acc e => dictInsert acc e.1 e.2) base

/-- The `results = {}; for x in src: ... results[sym] = quote` loop shared by
both adapters, with `parse` doing one iteration's work (`none` = the row was
skipped). -/
def buildDict {β : Type} (src : List β) (parse : β → Option (String × Quote)) :
    List (String × Quote) :=
  src.foldl (fun acc x => match parse x with
    | some (k, v) => dictInsert acc k v
    | none => acc) []

/-! ### Quote source adapters

The network/HTML layer is lexed away: a merolagani table cell is either
blank text, numeric text with value `q` (commas already stripped), or text
Python's `float`/`int` rejects (raising `ValueError`, which the row loop
catches). A NEPSE API item is a record of optional JSON fields. -/

/-- One `<td>` cell of the merolagani table, after `get_text(strip=True)`
and `.replace(",", "")`. -/
inductive NumCell
  | blank
  | val (q : ℚ)
  | bad
deriving DecidableEq

/-- Python `float(text or fallback)`: blank text falls back, numeric text
parses, anything else raises `ValueError` (modelled as `none`). -/
def NumCell.toFloat : NumCell → ℚ → Option ℚ
  | .blank, fallback => some fallback
  | .val q, _ => some q
  | .bad, _ => none

/-- Python `int(text or 0)`: blank gives 0, integer text parses, non-integer
or malformed text raises `ValueError`. -/
def NumCell.toInt : NumCell → Option ℤ
  | .blank => some 0
  | .val q => if q.den = 1 then some q.num else none
  | .bad => none

/-- One data row of the merolagani table: either too short
(`len(cols) < 6`, skipped) or the cells `cols[1]`..`cols[5]` plus the
optional `cols[6]` (present only when `len(cols) > 6`). -/
inductive MRow
  | short
  | full (sym : String) (ltp high low chg : NumCell) (vol : Option NumCell)
deriving DecidableEq

/-- The parsed last-traded price of a merolagani row (`float(cols[2] or 0)`). -/
def MRow.ltpVal : MRow → Option ℚ
  | .short => none
  | .full _ ltp _ _ _ _ => ltp.toFloat 0

/-- The parsed change column of a merolagani row (`float(cols[5] or 0)`). -/
def MRow.chgVal : MRow → Option ℚ
  | .short => none
  | .full _ _ _ _ chg _ => chg.toFloat 0

/-- `int(cols[6].get_text(strip=True).replace(",", "") or 0) if
len(cols) > 6 else 0`. -/
def volParse : Option NumCell → Option ℤ
  | some c => c.toInt
  | none => some 0

/-- One loop iteration of `fetch_merolagani`: parse the row's cells, then
keep it only when `ltp > 0`. A `ValueError` in any cell skips the row. -/
def parseMRow : MRow → Option (String × Quote)
  | .short => none
  | .full sym ltpC highC lowC chgC volC => do
    let ltp ← ltpC.toFloat 0
    let chg ← chgC.toFloat 0
    let prev := ltp - chg
    let chgp := round2 (if prev = 0 then 0 else chg / prev * 100)
    let vol ← volParse volC
    let high ← highC.toFloat ltp
    let low ← lowC.toFloat ltp
    if 0 < ltp then
      some (sym,
        { symbol := sym, price := round2 ltp, change := round2 chg,
          changePercent := chgp, volume := vol, high := round2 high,
          low := round2 low, openPrice := round2 prev, prevClose := round2 prev })
    else none

/-- `fetch_merolagani`, as a function of the parsed data rows (header
already dropped; a missing table is the empty row list). -/
def fetch_merolagani (rows : List MRow) : List (String × Quote) :=
  buildDict rows parseMRow

/-- One JSON item of the NEPSE `today-price` response; `none` is a missing
key (or JSON null). -/
structure ApiItem where
  symbol : Option String
  stockSymbol : Option String
  closingPrice : Option ℚ
  lastTradedPrice : Option ℚ
  ltp : Option ℚ
  previousClose : Option ℚ
  prevClose : Option ℚ
  totalTradeQuantity : Option ℤ
  volume : Option ℤ
  highPrice : Option ℚ
  lowPrice : Option ℚ
deriving DecidableEq

/-- Python truthiness filter for an optional string (`"" `is falsy). -/
def truthyS : Option String → Option String
  | some s => if s = "" then none else some s
  | none => none

/-- Python truthiness filter for an optional number (`0` is falsy). -/
def truthyQ : Option ℚ → Option ℚ
  | some q => if q = 0 then none else some q
  | none => none

/-- Python truthiness filter for an optional integer (`0` is falsy). -/
def truthyZ : Option ℤ → Option ℤ
  | some z => if z = 0 then none else some z
  | none => none

/-- `item.get("symbol") or item.get("stockSymbol") or ""`. -/
def apiSym (item : ApiItem) : String :=
  ((truthyS item.symbol).orElse fun _ => truthyS item.stockSymbol).getD ("")

/-- `float(item.get("closingPrice") or item.get("lastTradedPrice") or
item.get("ltp") or 0)`. -/
def apiLtp (item : ApiItem) : ℚ :=
  ((truthyQ item.closingPrice).orElse fun _ =>
    (truthyQ item.lastTradedPrice).orElse fun _ => truthyQ item.ltp).getD 0

/-- `float(item.get("previousClose") or item.get("prevClose") or ltp)`. -/
def apiPrev (item : ApiItem) : ℚ :=
  ((truthyQ item.previousClose).orElse fun _ => truthyQ item.prevClose).getD (apiLtp item)

/-- One loop iteration of `fetch_nepse_api`: normalize the item's fields,
keep it only when `sym and ltp > 0`. -/
def parseApiItem (item : ApiItem) : Option (String × Quote) :=
  let sym := apiSym item
  let ltp := apiLtp item
  let prev := apiPrev item
  let chg := round2 (ltp - prev)
  let chgp := round2 (if prev = 0 then 0 else chg / prev * 100)
  let vol := ((truthyZ item.totalTradeQuantity).orElse fun _ => truthyZ item.volume).getD 0
  let high := (truthyQ item.highPrice).getD ltp
  let low := (truthyQ item.lowPrice).getD ltp
  if sym ≠ "" ∧ 0 < ltp then
    some (sym,
      { symbol := sym, price := round2 ltp, change := round2 chg,
        changePercent := chgp, volume := vol, high := round2 high,
        low := round2 low, openPrice := round2 prev, prevClose := round2 prev })
  else none

/-- `fetch_nepse_api`, as a function of the decoded JSON items. -/
def fetch_nepse_api (items : List ApiItem) : List (String × Quote) :=
  buildDict items parseApiItem

/-- `refresh_all_prices`, as a function of what the two adapters would
return this tick and of the current `_prices` cache; yields the cache after
the tick. Mirrors: `results = fetch_nepse_api(); if not results: results =
fetch_merolagani(); if results: _prices.update(results)`. -/
def refresh_all_prices (apiResults scrapeResults cache : List (String × Quote)) :
    List (String × Quote) :=
  let results := if apiResults.isEmpty then scrapeResults else apiResults
  if results.isEmpty then cache else dictUpdate cache results

/-! ### Ledger store and trade executor -/

/-- One `portfolio` table row's payload (the symbol is the key). -/
structure PortfolioPos where
  shares : ℚ
  avg_price : ℚ
deriving DecidableEq

/-- One `transactions` table row (user id and timestamp elided; the log is
kept in insertion order). -/
structure TxRow where
  symbol : String
  type : String
  shares : ℚ
  price : ℚ
  total : ℚ
  pnl : ℚ
deriving DecidableEq

/-- The per-user slice of the database: the `user_balance` row (which may
be absent), the `portfolio` rows, and the append-only `transactions` log. -/
structure Ledger where
  balanceRow : Option ℚ
  portfolio : List (String × PortfolioPos)
  transactions : List TxRow
deriving DecidableEq

def INITIAL_BALANCE : ℚ := 25000

/-- `get_balance`: the stored balance, or the initial balance when the user
has no `user_balance` row. -/
def get_balance (l : Ledger) : ℚ := l.balanceRow.getD INITIAL_BALANCE

/-- `UPDATE user_balance SET balance=? WHERE user_id=?`: a no-op when the
row does not exist. -/
def update_user_balance (l : Ledger) (v : ℚ) : Ledger :=
  match l.balanceRow with
  | some _ => { l with balanceRow := some v }
  | none => l

/-- `SELECT shares, avg_price FROM portfolio WHERE user_id=? AND symbol=?`. -/
def findPos (pf : List (String × PortfolioPos)) (sym : String) : Option PortfolioPos :=
  alookup pf sym

/-- `UPDATE portfolio SET shares=?, avg_price=? WHERE user_id=? AND symbol=?`. -/
def updatePos (pf : List (String × PortfolioPos)) (sym : String) (p : PortfolioPos) :
    List (String × PortfolioPos) :=
  pf.map fun e => if e.1 = sym then (e.1, p) else e

/-- `DELETE FROM portfolio WHERE user_id=? AND symbol=?`. -/
def deletePos (pf : List (String × PortfolioPos)) (sym : String) :
    List (String × PortfolioPos) :=
  pf.filter fun e => e.1 ≠ sym

/-- `sym.replace('.', '-')`: each `'.'` character becomes `'-'`. -/
def replaceDots (s : String) : String :=
  ⟨s.data.map fun c => if c = '.' then '-' else c⟩

/-- `get_price`: a lookup in the `_prices` cache. -/
def get_price (cache : List (String × Quote)) (sym : String) : Option Quote :=
  alookup cache sym

/-- The fill-price resolution shared by `buy` and `sell`:
`live = get_price(sym) or get_price(sym.replace('.', '-'))`;
`prc = float(live["price"]) if live else float(d.get("price", 0))`. -/
def resolvePrice (cache : List (String × Quote)) (sym : String) (clientPrice : ℚ) : ℚ :=
  match (get_price cache sym).orElse fun _ => get_price cache (replaceDots sym) with
  | some live => live.price
  | none => clientPrice

/-- The error taxonomy of the trade routes (HTTP 400 responses). -/
inductive TradeError
  | invalidParameters
  | priceUnavailable
  | insufficientFunds
  | insufficientShares
deriving DecidableEq

/-- Payload of a successful `/api/buy` response. -/
structure BuyOk where
  balance : ℚ
  price : ℚ
deriving DecidableEq

/-- Payload of a successful `/api/sell` response. -/
structure SellOk where
  balance : ℚ
  pnl : ℚ
  price : ℚ
deriving DecidableEq

/-- The `/api/buy` handler: returns the database state after the call
together with the response. Error paths perform no writes. -/
def buy (cache : List (String × Quote)) (l : Ledger) (sym : String)
    (shrs clientPrice : ℚ) : Ledger × Except TradeError BuyOk :=
  if shrs ≤ 0 ∨ sym = "" then (l, .error .invalidParameters)
  else
    let prc := resolvePrice cache sym clientPrice
    if prc ≤ 0 then (l, .error .priceUnavailable)
    else
      let total := shrs * prc
      let bal := get_balance l
      if bal < total then (l, .error .insufficientFunds)
      else
        let pf :=
          match findPos l.portfolio sym with
          | some existing =>
              let new_shares := existing.shares + shrs
              let new_avg := (existing.avg_price * existing.shares + total) / new_shares
              updatePos l.portfolio sym ⟨new_shares, new_avg⟩
          | none => l.portfolio ++ [(sym, ⟨shrs, prc⟩)]
        let new_bal := bal - total
        let l' := update_user_balance
          { l with portfolio := pf,
                   transactions := l.transactions ++ [⟨sym, "BUY", shrs, prc, total, 0⟩] }
          new_bal
        (l', .ok ⟨new_bal, prc⟩)

/-- The `/api/sell` handler, same conventions as `buy`. -/
def sell (cache : List (String × Quote)) (l : Ledger) (sym : String)
    (shrs clientPrice : ℚ) : Ledger × Except TradeError SellOk :=
  if shrs ≤ 0 ∨ sym = "" then (l, .error .invalidParameters)
  else
    let prc := resolvePrice cache sym clientPrice
    if prc ≤ 0 then (l, .error .priceUnavailable)
    else
      match findPos l.portfolio sym with
      | none => (l, .error .insufficientShares)
      | some pos =>
        if pos.shares < shrs then (l, .error .insufficientShares)
        else
          let proceeds := shrs * prc
          let pnl := (prc - pos.avg_price) * shrs
          let new_shares := pos.shares - shrs
          let pf := if new_shares ≤ 0 then deletePos l.portfolio sym
                    else updatePos l.portfolio sym ⟨new_shares, pos.avg_price⟩
          let bal := get_balance l
          let new_bal := bal + proceeds
          let l' := update_user_balance
            { l with portfolio := pf,
                     transactions := l.transactions ++ [⟨sym, "SELL", shrs, prc, proceeds, pnl⟩] }
            new_bal
          (l', .ok ⟨new_bal, pnl, prc⟩)

/-- The total cost basis of a portfolio:
`sum(position.shares × position.avgCost)`. -/
def posSum (pf : List (String × PortfolioPos)) : ℚ :=
  (pf.map fun e => e.2.shares * e.2.avg_price).sum

/-- The conserved quantity of the spec's conservation property:
`balance + sum(position.shares × position.avgCost for all positions)`. -/
def ledgerValue (l : Ledger) : ℚ :=
  get_balance l + posSum l.portfolio

/-! ### Dictionary and portfolio lemmas -/

theorem alookup_cons {α : Type} (e : String × α) (rest : List (String × α)) (s : String) :
    alookup (e :: rest) s = if e.1 = s then some e.2 else alookup rest s := rfl

theorem dictInsert_cons {α : Type} (e : String × α) (rest : List (String × α))
    (k : String) (v : α) :
    dictInsert (e :: rest) k v = if e.1 = k then (k, v) :: rest else e :: dictInsert rest k v := rfl

theorem updatePos_cons (e : String × PortfolioPos) (rest : List (String × PortfolioPos))
    (sym : String) (p : PortfolioPos) :
    updatePos (e :: rest) sym p =
      (if e.1 = sym then (e.1, p) else e) :: updatePos rest sym p := rfl

theorem deletePos_cons (e : String × PortfolioPos) (rest : List (String × PortfolioPos))
    (sym : String) :
    deletePos (e :: rest) sym =
      if e.1 = sym then deletePos rest sym else e :: deletePos rest sym := by
  by_cases he : e.1 = sym <;> simp [deletePos, List.filter_cons, he]

theorem posSum_cons (e : String × PortfolioPos) (rest : List (String × PortfolioPos)) :
    posSum (e :: rest) = e.2.shares * e.2.avg_price + posSum rest := by
  simp [posSum]

theorem alookup_eq_none_iff {α : Type} (m : List (String × α)) (s : String) :
    alookup m s = none ↔ s ∉ m.map Prod.fst := by
  induction m with
  | nil => simp [alookup]
  | cons e rest ih =>
    rw [alookup_cons]
    by_cases he : e.1 = s
    · subst he
      simp
    · rw [if_neg he, ih]
      simp only [List.map_cons, List.mem_cons, not_or]
      constructor
      · intro h
        exact ⟨fun hs => he hs.symm, h⟩
      · intro h
        exact h.2

theorem alookup_mem {α : Type} {m : List (String × α)} {s : String} {v : α}
    (h : alookup m s = some v) : (s, v) ∈ m := by
  induction m with
  | nil => simp [alookup] at h
  | cons e rest ih =>
    rw [alookup_cons] at h
    by_cases he : e.1 = s
    · rw [if_pos he] at h
      subst he
      rw [Option.some.injEq] at h
      subst h
      exact List.mem_cons_self _ _
    · rw [if_neg he] at h
      exact List.mem_cons_of_mem _ (ih h)

theorem mem_dictInsert {α : Type} {m : List (String × α)} {k s : String} {v w : α}
    (h : (s, w) ∈ dictInsert m k v) : (s, w) = (k, v) ∨ (s, w) ∈ m := by
  induction m with
  | nil => simpa [dictInsert] using h
  | cons e rest ih =>
    rw [dictInsert_cons] at h
    by_cases he : e.1 = k
    · rw [if_pos he] at h
      rcases List.mem_cons.mp h with h' | h'
      · exact Or.inl h'
      · exact Or.inr (List.mem_cons_of_mem _ h')
    · rw [if_neg he] at h
      rcases List.mem_cons.mp h with h' | h'
      · exact Or.inr (List.mem_cons.mpr (Or.inl h'))
      · rcases ih h' with h'' | h''
        · exact Or.inl h''
        · exact Or.inr (List.mem_cons_of_mem _ h'')

theorem alookup_dictInsert {α : Type} (m : List (String × α)) (k s : String) (v : α) :
    alookup (dictInsert m k v) s = if k = s then some v else alookup m s := by
  induction m with
  | nil => simp [dictInsert, alookup]
  | cons e rest ih =>
    rw [dictInsert_cons]
    by_cases he : e.1 = k
    · rw [if_pos he, alookup_cons, alookup_cons]
      by_cases hs : k = s
      · rw [if_pos hs, if_pos hs]
      · have hes : ¬ e.1 = s := fun hh => hs (he ▸ hh)
        rw [if_neg hs, if_neg hs, if_neg hes]
    · rw [if_neg he, alookup_cons, alookup_cons]
      by_cases hs : e.1 = s
      · have hks : ¬ k = s := fun hh => he (hs ▸ hh ▸ rfl)
        rw [if_pos hs, if_pos hs, if_neg hks]
      · rw [if_neg hs, if_neg hs, ih]

theorem alookup_dictUpdate_of_none {α : Type} {r : List (String × α)} {s : String}
    (c : List (String × α)) (h : alookup r s = none) :
    alookup (dictUpdate c r) s = alookup c s := by
  induction r generalizing c with
  | nil => rfl
  | cons e rest ih =>
    rw [alookup_cons] at h
    by_cases he : e.1 = s
    · rw [if_pos he] at h
      exact absurd h (by simp)
    · rw [if_neg he] at h
      show alookup (dictUpdate (dictInsert c e.1 e.2) rest) s = alookup c s
      rw [ih _ h, alookup_dictInsert, if_neg he]

theorem alookup_dictUpdate_of_some {α : Type} {r : List (String × α)} {s : String} {v : α}
    (c : List (String × α)) (hnd : (r.map Prod.fst).Nodup) (h : alookup r s = some v) :
    alookup (dictUpdate c r) s = some v := by
  induction r generalizing c with
  | nil => simp [alookup] at h
  | cons e rest ih =>
    simp only [List.map_cons, List.nodup_cons] at hnd
    rw [alookup_cons] at h
    by_cases he : e.1 = s
    · rw [if_pos he] at h
      have hrest : alookup rest s = none := by
        rw [alookup_eq_none_iff]
        exact he ▸ hnd.1
      show alookup (dictUpdate (dictInsert c e.1 e.2) rest) s = some v
      rw [alookup_dictUpdate_of_none _ hrest, alookup_dictInsert, if_pos he, h]
    · rw [if_neg he] at h
      exact ih _ hnd.2 h

theorem mem_foldl_dictInsert {β : Type} (parse : β → Option (String × Quote)) :
    ∀ (src : List β) (acc : List (String × Quote)) (x : String × Quote),
      x ∈ src.foldl (fun acc y => match parse y with
        | some (k, v) => dictInsert acc k v
        | none => acc) acc →
      x ∈ acc ∨ ∃ b ∈ src, parse b = some x
  | [], _, _, h => Or.inl h
  | b :: rest, acc, x, h => by
    simp only [List.foldl_cons] at h
    rcases mem_foldl_dictInsert parse rest _ x h with h' | h'
    · rcases hp : parse b with _ | ⟨k, v⟩
      · rw [hp] at h'
        exact Or.inl h'
      · rw [hp] at h'
        rcases x with ⟨xs, xv⟩
        rcases mem_dictInsert h' with h3 | h3
        · exact Or.inr ⟨b, List.mem_cons_self _ _, by rw [hp, h3]⟩
        · exact Or.inl h3
    · obtain ⟨b', hb', hpb'⟩ := h'
      exact Or.inr ⟨b', List.mem_cons_of_mem _ hb', hpb'⟩

theorem mem_buildDict {β : Type} {src : List β} {parse : β → Option (String × Quote)}
    {x : String × Quote} (h : x ∈ buildDict src parse) :
    ∃ b ∈ src, parse b = some x := by
  rcases mem_foldl_dictInsert parse src [] x h with h' | h'
  · simp at h'
  · exact h'

theorem findPos_updatePos_self {pf : List (String × PortfolioPos)} {sym : String}
    {pos : PortfolioPos} (p : PortfolioPos) (h : findPos pf sym = some pos) :
    findPos (updatePos pf sym p) sym = some p := by
  induction pf with
  | nil => simp [findPos, alookup] at h
  | cons e rest ih =>
    rw [updatePos_cons]
    by_cases he : e.1 = sym
    · rw [if_pos he]
      show (if e.1 = sym then some p else _) = some p
      rw [if_pos he]
    · rw [if_neg he]
      rw [show findPos (e :: rest) sym = if e.1 = sym then some e.2 else findPos rest sym
        from rfl, if_neg he] at h
      show (if e.1 = sym then some e.2 else findPos (updatePos rest sym p) sym) = some p
      rw [if_neg he, ih h]

theorem findPos_append_of_none {pf : List (String × PortfolioPos)} {sym : String}
    (p : PortfolioPos) (h : findPos pf sym = none) :
    findPos (pf ++ [(sym, p)]) sym = some p := by
  induction pf with
  | nil => simp [findPos, alookup]
  | cons e rest ih =>
    rw [show findPos (e :: rest) sym = if e.1 = sym then some e.2 else findPos rest sym
      from rfl] at h
    by_cases he : e.1 = sym
    · rw [if_pos he] at h
      exact absurd h (by simp)
    · rw [if_neg he] at h
      rw [List.cons_append]
      show (if e.1 = sym then some e.2 else findPos (rest ++ [(sym, p)]) sym) = some p
      rw [if_neg he, ih h]

theorem findPos_deletePos_self (pf : List (String × PortfolioPos)) (sym : String) :
    findPos (deletePos pf sym) sym = none := by
  induction pf with
  | nil => rfl
  | cons e rest ih =>
    rw [deletePos_cons]
    by_cases he : e.1 = sym
    · rw [if_pos he]
      exact ih
    · rw [if_neg he]
      show (if e.1 = sym then some e.2 else findPos (deletePos rest sym) sym) = none
      rw [if_neg he, ih]

theorem updatePos_of_not_mem {pf : List (String × PortfolioPos)} {sym : String}
    (p : PortfolioPos) (h : sym ∉ pf.map Prod.fst) : updatePos pf sym p = pf := by
  induction pf with
  | nil => rfl
  | cons e rest ih =>
    simp only [List.map_cons, List.mem_cons, not_or] at h
    have he : ¬ e.1 = sym := fun hh => h.1 hh.symm
    rw [updatePos_cons, if_neg he, ih h.2]

theorem deletePos_of_not_mem {pf : List (String × PortfolioPos)} {sym : String}
    (h : sym ∉ pf.map Prod.fst) : deletePos pf sym = pf := by
  induction pf with
  | nil => rfl
  | cons e rest ih =>
    simp only [List.map_cons, List.mem_cons, not_or] at h
    have he : ¬ e.1 = sym := fun hh => h.1 hh.symm
    rw [deletePos_cons, if_neg he, ih h.2]

theorem posSum_updatePos {pf : List (String × PortfolioPos)} {sym : String}
    {pos : PortfolioPos} (p : PortfolioPos)
    (hnd : (pf.map Prod.fst).Nodup) (h : findPos pf sym = some pos) :
    posSum (updatePos pf sym p) =
      posSum pf - pos.shares * pos.avg_price + p.shares * p.avg_price := by
  induction pf with
  | nil => simp [findPos, alookup] at h
  | cons e rest ih =>
    simp only [List.map_cons, List.nodup_cons] at hnd
    rw [show findPos (e :: rest) sym = if e.1 = sym then some e.2 else findPos rest sym
      from rfl] at h
    rw [updatePos_cons]
    by_cases he : e.1 = sym
    · rw [if_pos he] at h
      rw [Option.some.injEq] at h
      subst h
      rw [if_pos he, updatePos_of_not_mem p (he ▸ hnd.1)]
      rw [posSum_cons, posSum_cons]
      ring
    · rw [if_neg he] at h
      rw [if_neg he, posSum_cons, posSum_cons, ih hnd.2 h]
      ring

theorem posSum_deletePos {pf : List (String × PortfolioPos)} {sym : String}
    {pos : PortfolioPos}
    (hnd : (pf.map Prod.fst).Nodup) (h : findPos pf sym = some pos) :
    posSum (deletePos pf sym) = posSum pf - pos.shares * pos.avg_price := by
  induction pf with
  | nil => simp [findPos, alookup] at h
  | cons e rest ih =>
    simp only [List.map_cons, List.nodup_cons] at hnd
    rw [show findPos (e :: rest) sym = if e.1 = sym then some e.2 else findPos rest sym
      from rfl] at h
    rw [deletePos_cons]
    by_cases he : e.1 = sym
    · rw [if_pos he] at h
      rw [Option.some.injEq] at h
      subst h
      rw [if_pos he, deletePos_of_not_mem (he ▸ hnd.1), posSum_cons]
      ring
    · rw [if_neg he] at h
      rw [if_neg he, posSum_cons, posSum_cons, ih hnd.2 h]
      ring

theorem posSum_append (pf : List (String × PortfolioPos)) (sym : String) (p : PortfolioPos) :
    posSum (pf ++ [(sym, p)]) = posSum pf + p.shares * p.avg_price := by
  simp [posSum]

/-! ### Rounding lemmas -/

theorem roundHalfEven_intCast (m : ℤ) : roundHalfEven (m : ℚ) = m := by
  unfold roundHalfEven
  rw [Int.floor_intCast, if_pos (by norm_num)]

theorem round2_round2 (x : ℚ) : round2 (round2 x) = round2 x := by
  unfold round2
  rw [div_mul_cancel₀ _ (by norm_num : (100 : ℚ) ≠ 0), roundHalfEven_intCast]

/-! ### Trade path lemmas -/

theorem trade_guard_false {shrs : ℚ} {sym : String} (hsh : 0 < shrs) (hsym : sym ≠ "") :
    ¬ (shrs ≤ 0 ∨ sym = "") := by
  simp [not_or, not_le, hsh, hsym]

theorem update_user_balance_none {l : Ledger} (h : l.balanceRow = none) (v : ℚ) :
    update_user_balance l v = l := by
  unfold update_user_balance
  rw [h]

theorem update_user_balance_some {l : Ledger} {b : ℚ} (h : l.balanceRow = some b) (v : ℚ) :
    update_user_balance l v = { l with balanceRow := some v } := by
  unfold update_user_balance
  rw [h]

/-- The success path of `buy`, with the resulting state spelled out. -/
theorem buy_ok (cache : List (String × Quote)) (l : Ledger) (sym : String) (shrs cp : ℚ)
    (hsh : 0 < shrs) (hsym : sym ≠ "")
    (hprc : 0 < resolvePrice cache sym cp)
    (hfunds : shrs * resolvePrice cache sym cp ≤ get_balance l) :
    buy cache l sym shrs cp =
      (update_user_balance
        { l with
          portfolio :=
            match findPos l.portfolio sym with
            | some existing =>
                updatePos l.portfolio sym
                  ⟨existing.shares + shrs,
                   (existing.avg_price * existing.shares + shrs * resolvePrice cache sym cp) /
                     (existing.shares + shrs)⟩
            | none => l.portfolio ++ [(sym, ⟨shrs, resolvePrice cache sym cp⟩)],
          transactions := l.transactions ++
            [⟨sym, "BUY", shrs, resolvePrice cache sym cp,
              shrs * resolvePrice cache sym cp, 0⟩] }
        (get_balance l - shrs * resolvePrice cache sym cp),
       .ok ⟨get_balance l - shrs * resolvePrice cache sym cp, resolvePrice cache sym cp⟩) := by
  unfold buy
  rw [if_neg (trade_guard_false hsh hsym)]
  simp only [if_neg (not_le.mpr hprc), if_neg (not_lt.mpr hfunds)]

/-- The success path of `sell`, with the resulting state spelled out. -/
theorem sell_ok (cache : List (String × Quote)) (l : Ledger) (sym : String) (shrs cp : ℚ)
    (pos : PortfolioPos)
    (hsh : 0 < shrs) (hsym : sym ≠ "")
    (hprc : 0 < resolvePrice cache sym cp)
    (hpos : findPos l.portfolio sym = some pos)
    (hheld : shrs ≤ pos.shares) :
    sell cache l sym shrs cp =
      (update_user_balance
        { l with
          portfolio :=
            if pos.shares - shrs ≤ 0 then deletePos l.portfolio sym
            else updatePos l.portfolio sym ⟨pos.shares - shrs, pos.avg_price⟩,
          transactions := l.transactions ++
            [⟨sym, "SELL", shrs, resolvePrice cache sym cp,
              shrs * resolvePrice cache sym cp,
              (resolvePrice cache sym cp - pos.avg_price) * shrs⟩] }
        (get_balance l + shrs * resolvePrice cache sym cp),
       .ok ⟨get_balance l + shrs * resolvePrice cache sym cp,
            (resolvePrice cache sym cp - pos.avg_price) * shrs,
            resolvePrice cache sym cp⟩) := by
  unfold sell
  rw [if_neg (trade_guard_false hsh hsym)]
  simp only [if_neg (not_le.mpr hprc), hpos, if_neg (not_lt.mpr hheld)]

theorem update_user_balance_portfolio (l : Ledger) (v : ℚ) :
    (update_user_balance l v).portfolio = l.portfolio := by
  unfold update_user_balance
  cases h : l.balanceRow <;> rfl

theorem update_user_balance_transactions (l : Ledger) (v : ℚ) :
    (update_user_balance l v).transactions = l.transactions := by
  unfold update_user_balance
  cases h : l.balanceRow <;> rfl

theorem update_user_balance_balanceRow_of_none {l : Ledger}
    (h : l.balanceRow = none) (v : ℚ) :
    (update_user_balance l v).balanceRow = none := by
  unfold update_user_balance
  rw [h]
  exact h

theorem resolvePrice_nil (sym : String) (cp : ℚ) : resolvePrice [] sym cp = cp := rfl

theorem get_balance_some {l : Ledger} {b : ℚ} (h : l.balanceRow = some b) :
    get_balance l = b := by
  rw [get_balance, h]
  rfl

theorem update_user_balance_balanceRow_of_some {l : Ledger} {b : ℚ}
    (h : l.balanceRow = some b) (v : ℚ) :
    (update_user_balance l v).balanceRow = some v := by
  unfold update_user_balance
  rw [h]

/-! ### Claims -/

/-- C10: for an account with no row in the balance table, a buy with
positive shares, positive resolved price, and total within the initial
balance still succeeds: the position and the BUY transaction are recorded
and the response reports `initial balance − total`, but the balance
`UPDATE` matches no stored row, so a subsequent `get_balance` still
returns the full initial balance — the debit is not persisted. -/
theorem buy_without_balance_row (cache : List (String × Quote)) (l : Ledger)
    (sym : String) (shrs cp : ℚ)
    (hrow : l.balanceRow = none) (hsh : 0 < shrs) (hsym : sym ≠ "")
    (hprc : 0 < resolvePrice cache sym cp)
    (hfunds : shrs * resolvePrice cache sym cp ≤ INITIAL_BALANCE) :
    ∃ l' : Ledger,
      buy cache l sym shrs cp =
        (l', .ok ⟨INITIAL_BALANCE - shrs * resolvePrice cache sym cp,
                  resolvePrice cache sym cp⟩) ∧
      l'.transactions = l.transactions ++
        [⟨sym, "BUY", shrs, resolvePrice cache sym cp,
          shrs * resolvePrice cache sym cp, 0⟩] ∧
      (findPos l'.portfolio sym).isSome = true ∧
      get_balance l' = INITIAL_BALANCE := by
  have hbal : get_balance l = INITIAL_BALANCE := by rw [get_balance, hrow]; rfl
  have heq := buy_ok cache l sym shrs cp hsh hsym hprc (by rw [hbal]; exact hfunds)
  rw [hbal] at heq
  refine ⟨_, heq, ?_, ?_, ?_⟩
  · rw [update_user_balance_transactions]
  · rw [update_user_balance_portfolio]
    show (findPos (match findPos l.portfolio sym with
      | some existing =>
          updatePos l.portfolio sym
            ⟨existing.shares + shrs,
             (existing.avg_price * existing.shares + shrs * resolvePrice cache sym cp) /
               (existing.shares + shrs)⟩
      | none => l.portfolio ++ [(sym, ⟨shrs, resolvePrice cache sym cp⟩)]) sym).isSome = true
    cases hpos : findPos l.portfolio sym with
    | some pos =>
      rw [findPos_updatePos_self _ hpos]
      rfl
    | none =>
      rw [findPos_append_of_none _ hpos]
      rfl
  · rw [get_balance, update_user_balance_balanceRow_of_none (by exact hrow)]
    rfl

theorem buy_without_balance_row_witness :
    ∃ l' : Ledger,
      buy [] ⟨none, [], []⟩ ("NABIL") 10 500 =
        (l', .ok ⟨INITIAL_BALANCE - 10 * resolvePrice [] ("NABIL") 500,
                  resolvePrice [] ("NABIL") 500⟩) ∧
      l'.transactions = ([] : List TxRow) ++
        [⟨"NABIL", "BUY", 10, resolvePrice [] ("NABIL") 500,
          10 * resolvePrice [] ("NABIL") 500, 0⟩] ∧
      (findPos l'.portfolio ("NABIL")).isSome = true ∧
      get_balance l' = INITIAL_BALANCE :=
  buy_without_balance_row [] ⟨none, [], []⟩ ("NABIL") 10 500 rfl (by norm_num)
    (by decide) (by rw [resolvePrice_nil]; norm_num)
    (by rw [resolvePrice_nil]; norm_num [INITIAL_BALANCE])

/-- C5: with positive shares, a non-empty symbol and a positive
resolved price, a buy fails with `InsufficientFunds` exactly when
`total = shares × price` exceeds the current balance (a buy whose total
equals the balance succeeds), and on that failure the returned state is
exactly the state before the call. -/
theorem buy_insufficient_funds_iff (cache : List (String × Quote)) (l : Ledger)
    (sym : String) (shrs cp : ℚ)
    (hsh : 0 < shrs) (hsym : sym ≠ "") (hprc : 0 < resolvePrice cache sym cp) :
    (get_balance l < shrs * resolvePrice cache sym cp →
      buy cache l sym shrs cp = (l, .error .insufficientFunds)) ∧
    (shrs * resolvePrice cache sym cp ≤ get_balance l →
      ∃ l' r, buy cache l sym shrs cp = (l', .ok r)) := by
  constructor
  · intro hlt
    unfold buy
    rw [if_neg (trade_guard_false hsh hsym)]
    simp only [if_neg (not_le.mpr hprc), if_pos hlt]
  · intro hle
    exact ⟨_, _, buy_ok cache l sym shrs cp hsh hsym hprc hle⟩

theorem buy_insufficient_funds_iff_witness :
    (buy [] ⟨some 4000, [], []⟩ ("NABIL") 10 500 =
      (⟨some 4000, [], []⟩, .error .insufficientFunds)) ∧
    (∃ l' r, buy [] ⟨some 5000, [], []⟩ ("NABIL") 10 500 = (l', .ok r)) :=
  ⟨(buy_insufficient_funds_iff [] ⟨some 4000, [], []⟩ ("NABIL") 10 500 (by norm_num)
      (by decide) (by rw [resolvePrice_nil]; norm_num)).1
      (by rw [resolvePrice_nil]; norm_num [get_balance]),
   (buy_insufficient_funds_iff [] ⟨some 5000, [], []⟩ ("NABIL") 10 500 (by norm_num)
      (by decide) (by rw [resolvePrice_nil]; norm_num)).2
      (by rw [resolvePrice_nil]; norm_num [get_balance])⟩

/-- C4: a sell by an account holding no position in the symbol, or
holding fewer shares than requested, fails with `InsufficientShares` and
returns a state identical to the state before the call (balance,
positions and transaction log untouched). -/
theorem sell_insufficient_shares (cache : List (String × Quote)) (l : Ledger)
    (sym : String) (shrs cp : ℚ)
    (hsh : 0 < shrs) (hsym : sym ≠ "") (hprc : 0 < resolvePrice cache sym cp)
    (hpos : findPos l.portfolio sym = none ∨
      ∃ pos, findPos l.portfolio sym = some pos ∧ pos.shares < shrs) :
    sell cache l sym shrs cp = (l, .error .insufficientShares) := by
  unfold sell
  rw [if_neg (trade_guard_false hsh hsym)]
  rcases hpos with h | ⟨pos, h, hlt⟩
  · simp only [if_neg (not_le.mpr hprc), h]
  · simp only [if_neg (not_le.mpr hprc), h, if_pos hlt]

/-- C1: a buy by an account already holding the symbol (with positive
shares, positive resolved price, and total within the balance) updates the
position to `newShares = oldShares + shares` and
`newAvgCost = (oldAvgCost·oldShares + shares·price) / newShares`; and
buying `a` shares at price `p₁` then `b` at `p₂` starting from no position
yields `avgCost = (a·p₁ + b·p₂)/(a + b)` exactly. -/
theorem buy_average_cost :
    (∀ (cache : List (String × Quote)) (l : Ledger) (sym : String)
        (pos : PortfolioPos) (shrs cp : ℚ),
      findPos l.portfolio sym = some pos → 0 < shrs → sym ≠ "" →
      0 < resolvePrice cache sym cp →
      shrs * resolvePrice cache sym cp ≤ get_balance l →
      ∃ l' rb, buy cache l sym shrs cp = (l', .ok ⟨rb, resolvePrice cache sym cp⟩) ∧
        findPos l'.portfolio sym =
          some ⟨pos.shares + shrs,
                (pos.avg_price * pos.shares + shrs * resolvePrice cache sym cp) /
                  (pos.shares + shrs)⟩) ∧
    (∀ (cache₁ cache₂ : List (String × Quote)) (l : Ledger) (sym : String)
        (a b cp₁ cp₂ bal0 : ℚ),
      l.balanceRow = some bal0 → findPos l.portfolio sym = none →
      0 < a → 0 < b → sym ≠ "" →
      0 < resolvePrice cache₁ sym cp₁ → 0 < resolvePrice cache₂ sym cp₂ →
      a * resolvePrice cache₁ sym cp₁ + b * resolvePrice cache₂ sym cp₂ ≤ bal0 →
      ∃ l₁ rb₁ l₂ rb₂,
        buy cache₁ l sym a cp₁ = (l₁, .ok ⟨rb₁, resolvePrice cache₁ sym cp₁⟩) ∧
        buy cache₂ l₁ sym b cp₂ = (l₂, .ok ⟨rb₂, resolvePrice cache₂ sym cp₂⟩) ∧
        findPos l₂.portfolio sym =
          some ⟨a + b,
                (a * resolvePrice cache₁ sym cp₁ + b * resolvePrice cache₂ sym cp₂) /
                  (a + b)⟩) := by
  constructor
  · intro cache l sym pos shrs cp hpos hsh hsym hprc hfunds
    have heq := buy_ok cache l sym shrs cp hsh hsym hprc hfunds
    simp only [hpos] at heq
    refine ⟨_, _, heq, ?_⟩
    rw [update_user_balance_portfolio]
    exact findPos_updatePos_self _ hpos
  · intro cache₁ cache₂ l sym a b cp₁ cp₂ bal0 hrow hpos ha hb hsym hp₁ hp₂ hfunds
    have hbal : get_balance l = bal0 := get_balance_some hrow
    have hbp₂ : 0 < b * resolvePrice cache₂ sym cp₂ := mul_pos hb hp₂
    have hf₁ : a * resolvePrice cache₁ sym cp₁ ≤ get_balance l := by
      rw [hbal]; linarith
    have heq₁ := buy_ok cache₁ l sym a cp₁ ha hsym hp₁ hf₁
    simp only [hpos] at heq₁
    have hl₁pf : ((update_user_balance
          { l with
            portfolio := l.portfolio ++ [(sym, ⟨a, resolvePrice cache₁ sym cp₁⟩)],
            transactions := l.transactions ++
              [⟨sym, "BUY", a, resolvePrice cache₁ sym cp₁,
                a * resolvePrice cache₁ sym cp₁, 0⟩] }
          (get_balance l - a * resolvePrice cache₁ sym cp₁)).portfolio) =
            l.portfolio ++ [(sym, ⟨a, resolvePrice cache₁ sym cp₁⟩)] := by
      rw [update_user_balance_portfolio]
    have hl₁row := update_user_balance_balanceRow_of_some (l :=
          { l with
            portfolio := l.portfolio ++ [(sym, ⟨a, resolvePrice cache₁ sym cp₁⟩)],
            transactions := l.transactions ++
              [⟨sym, "BUY", a, resolvePrice cache₁ sym cp₁,
                a * resolvePrice cache₁ sym cp₁, 0⟩] })
        (b := bal0) (by exact hrow) (get_balance l - a * resolvePrice cache₁ sym cp₁)
    have hl₁bal : get_balance (update_user_balance
        { l with
          portfolio := l.portfolio ++ [(sym, ⟨a, resolvePrice cache₁ sym cp₁⟩)],
          transactions := l.transactions ++
            [⟨sym, "BUY", a, resolvePrice cache₁ sym cp₁,
              a * resolvePrice cache₁ sym cp₁, 0⟩] }
        (get_balance l - a * resolvePrice cache₁ sym cp₁)) =
          bal0 - a * resolvePrice cache₁ sym cp₁ := by
      rw [get_balance_some hl₁row, hbal]
    have hpos₁ : findPos ((update_user_balance
        { l with
          portfolio := l.portfolio ++ [(sym, ⟨a, resolvePrice cache₁ sym cp₁⟩)],
          transactions := l.transactions ++
            [⟨sym, "BUY", a, resolvePrice cache₁ sym cp₁,
              a * resolvePrice cache₁ sym cp₁, 0⟩] }
        (get_balance l - a * resolvePrice cache₁ sym cp₁)).portfolio) sym =
          some ⟨a, resolvePrice cache₁ sym cp₁⟩ := by
      rw [hl₁pf]
      exact findPos_append_of_none _ hpos
    have hf₂ : b * resolvePrice cache₂ sym cp₂ ≤ get_balance (update_user_balance
        { l with
          portfolio := l.portfolio ++ [(sym, ⟨a, resolvePrice cache₁ sym cp₁⟩)],
          transactions := l.transactions ++
            [⟨sym, "BUY", a, resolvePrice cache₁ sym cp₁,
              a * resolvePrice cache₁ sym cp₁, 0⟩] }
        (get_balance l - a * resolvePrice cache₁ sym cp₁)) := by
      rw [hl₁bal]; linarith
    have heq₂ := buy_ok cache₂ _ sym b cp₂ hb hsym hp₂ hf₂
    simp only [hpos₁] at heq₂
    refine ⟨_, _, _, _, heq₁, heq₂, ?_⟩
    rw [update_user_balance_portfolio]
    have hfind := findPos_updatePos_self
      (⟨(⟨a, resolvePrice cache₁ sym cp₁⟩ : PortfolioPos).shares + b,
        ((⟨a, resolvePrice cache₁ sym cp₁⟩ : PortfolioPos).avg_price *
            (⟨a, resolvePrice cache₁ sym cp₁⟩ : PortfolioPos).shares +
          b * resolvePrice cache₂ sym cp₂) /
          ((⟨a, resolvePrice cache₁ sym cp₁⟩ : PortfolioPos).shares + b)⟩ : PortfolioPos)
      hpos₁
    rw [hfind]
    have harith : resolvePrice cache₁ sym cp₁ * a + b * resolvePrice cache₂ sym cp₂ =
        a * resolvePrice cache₁ sym cp₁ + b * resolvePrice cache₂ sym cp₂ := by ring
    simp only [harith]

theorem buy_average_cost_witness :
    ∃ l' rb,
      buy [] ⟨some 25000, [("NABIL", ⟨10, 500⟩)], []⟩ ("NABIL") 10 600 =
        (l', .ok ⟨rb, resolvePrice [] ("NABIL") 600⟩) ∧
      findPos l'.portfolio ("NABIL") =
        some ⟨(10 : ℚ) + 10, (500 * 10 + 10 * resolvePrice [] ("NABIL") 600) / (10 + 10)⟩ :=
  buy_average_cost.1 [] ⟨some 25000, [("NABIL", ⟨10, 500⟩)], []⟩ ("NABIL") ⟨10, 500⟩ 10 600
    rfl (by norm_num) (by decide) (by rw [resolvePrice_nil]; norm_num)
    (by rw [resolvePrice_nil]; norm_num [get_balance])

/-- C2 (amended): for an account with a persisted balance row that
holds at least the requested shares, a sell credits the stored balance by
`proceeds = shares × price`, appends a SELL transaction with
`pnl = (price − avgCost) × shares`, removes the position row entirely
when the remaining shares are ≤ 0, and otherwise only reduces the share
count, leaving `avgCost` unchanged. (Without a balance row the credit is
reported but not persisted.) -/
theorem sell_ledger_effects (cache : List (String × Quote)) (l : Ledger) (sym : String)
    (shrs cp : ℚ) (pos : PortfolioPos) (bal0 : ℚ)
    (hrow : l.balanceRow = some bal0)
    (hpos : findPos l.portfolio sym = some pos)
    (hsh : 0 < shrs) (hsym : sym ≠ "")
    (hprc : 0 < resolvePrice cache sym cp)
    (hheld : shrs ≤ pos.shares) :
    ∃ l', sell cache l sym shrs cp =
        (l', .ok ⟨bal0 + shrs * resolvePrice cache sym cp,
                  (resolvePrice cache sym cp - pos.avg_price) * shrs,
                  resolvePrice cache sym cp⟩) ∧
      l'.balanceRow = some (bal0 + shrs * resolvePrice cache sym cp) ∧
      l'.transactions = l.transactions ++
        [⟨sym, "SELL", shrs, resolvePrice cache sym cp, shrs * resolvePrice cache sym cp,
          (resolvePrice cache sym cp - pos.avg_price) * shrs⟩] ∧
      (pos.shares - shrs ≤ 0 → findPos l'.portfolio sym = none) ∧
      (0 < pos.shares - shrs →
        findPos l'.portfolio sym = some ⟨pos.shares - shrs, pos.avg_price⟩) := by
  have heq := sell_ok cache l sym shrs cp pos hsh hsym hprc hpos hheld
  rw [get_balance_some hrow] at heq
  refine ⟨_, heq, ?_, ?_, ?_, ?_⟩
  · exact update_user_balance_balanceRow_of_some (by exact hrow) _
  · rw [update_user_balance_transactions]
  · intro h0
    rw [update_user_balance_portfolio]
    show findPos (if pos.shares - shrs ≤ 0 then deletePos l.portfolio sym
      else updatePos l.portfolio sym ⟨pos.shares - shrs, pos.avg_price⟩) sym = none
    rw [if_pos h0]
    exact findPos_deletePos_self _ _
  · intro hgt
    rw [update_user_balance_portfolio]
    show findPos (if pos.shares - shrs ≤ 0 then deletePos l.portfolio sym
      else updatePos l.portfolio sym ⟨pos.shares - shrs, pos.avg_price⟩) sym =
        some ⟨pos.shares - shrs, pos.avg_price⟩
    rw [if_neg (not_le.mpr hgt)]
    exact findPos_updatePos_self _ hpos

theorem sell_ledger_effects_witness :
    ∃ l', sell [] ⟨some 23000, [("NABIL", ⟨20, 550⟩)], []⟩ ("NABIL") 5 700 =
        (l', .ok ⟨23000 + 5 * resolvePrice [] ("NABIL") 700,
                  (resolvePrice [] ("NABIL") 700 - 550) * 5,
                  resolvePrice [] ("NABIL") 700⟩) ∧
      l'.balanceRow = some (23000 + 5 * resolvePrice [] ("NABIL") 700) ∧
      l'.transactions = ([] : List TxRow) ++
        [⟨"NABIL", "SELL", 5, resolvePrice [] ("NABIL") 700,
          5 * resolvePrice [] ("NABIL") 700,
          (resolvePrice [] ("NABIL") 700 - 550) * 5⟩] ∧
      ((20 : ℚ) - 5 ≤ 0 → findPos l'.portfolio ("NABIL") = none) ∧
      (0 < (20 : ℚ) - 5 →
        findPos l'.portfolio ("NABIL") = some ⟨(20 : ℚ) - 5, 550⟩) :=
  sell_ledger_effects [] ⟨some 23000, [("NABIL", ⟨20, 550⟩)], []⟩ ("NABIL") 5 700
    ⟨20, 550⟩ 23000 rfl rfl (by norm_num) (by decide)
    (by rw [resolvePrice_nil]; norm_num) (by norm_num)

/-- C2 (counterexample to the claim as stated): for an account whose
balance row is absent, a sell succeeds and reports a credited balance,
but the stored balance read back afterwards is unchanged — it is not
credited by the proceeds. -/
theorem sell_credit_counterexample :
    (sell [] ⟨none, [("NABIL", ⟨10, 500⟩)], []⟩ ("NABIL") 5 600).2 =
      .ok ⟨28000, 500, 600⟩ ∧
    get_balance (sell [] ⟨none, [("NABIL", ⟨10, 500⟩)], []⟩ ("NABIL") 5 600).1 = 25000 ∧
    ¬ ((25000 : ℚ) =
        get_balance ⟨none, [("NABIL", ⟨10, 500⟩)], []⟩ + 5 * 600) := by
  have hprc : 0 < resolvePrice [] ("NABIL") 600 := by rw [resolvePrice_nil]; norm_num
  have heq := sell_ok [] ⟨none, [("NABIL", ⟨10, 500⟩)], []⟩ ("NABIL") 5 600 ⟨10, 500⟩
    (by norm_num) (by decide) hprc rfl (by norm_num)
  refine ⟨?_, ?_, ?_⟩
  · rw [heq]
    show Except.ok _ = Except.ok _
    rw [resolvePrice_nil]
    norm_num [Except.ok.injEq, SellOk.mk.injEq, get_balance, INITIAL_BALANCE]
  · rw [heq]
    show get_balance (update_user_balance _ _) = 25000
    rw [get_balance, update_user_balance_balanceRow_of_none rfl]
    rfl
  · norm_num [get_balance, INITIAL_BALANCE]

/-- C3 (amended): for a ledger state satisfying the schema invariants
(a persisted balance row, symbols unique in the portfolio, positive share
counts), the quantity `balance + Σ position.shares × position.avgCost`
is left unchanged by a successful buy, changes by exactly the recorded
`pnl = (price − avgCost) × shares` on a successful sell, and is untouched
by any failed trade. (Without a balance row the debit/credit is not
persisted and the quantity drifts by the trade total.) -/
theorem trade_conservation (cache : List (String × Quote)) (l : Ledger) (sym : String)
    (shrs cp : ℚ)
    (hrow : l.balanceRow.isSome = true)
    (hnd : (l.portfolio.map Prod.fst).Nodup)
    (hpospf : ∀ e ∈ l.portfolio, 0 < e.2.shares) :
    (∀ l' r, buy cache l sym shrs cp = (l', .ok r) → ledgerValue l' = ledgerValue l) ∧
    (∀ l' r, sell cache l sym shrs cp = (l', .ok r) →
      ledgerValue l' = ledgerValue l + r.pnl) ∧
    (∀ l' e, buy cache l sym shrs cp = (l', .error e) → l' = l) ∧
    (∀ l' e, sell cache l sym shrs cp = (l', .error e) → l' = l) := by
  obtain ⟨b0, hb0⟩ := Option.isSome_iff_exists.mp hrow
  refine ⟨?_, ?_, ?_, ?_⟩
  · intro l' r hbuy
    by_cases hg : shrs ≤ 0 ∨ sym = ""
    · unfold buy at hbuy
      rw [if_pos hg] at hbuy
      simp at hbuy
    · push_neg at hg
      by_cases hp : resolvePrice cache sym cp ≤ 0
      · unfold buy at hbuy
        rw [if_neg (trade_guard_false hg.1 hg.2)] at hbuy
        simp only [if_pos hp] at hbuy
        simp at hbuy
      · by_cases hlt : get_balance l < shrs * resolvePrice cache sym cp
        · unfold buy at hbuy
          rw [if_neg (trade_guard_false hg.1 hg.2)] at hbuy
          simp only [if_neg hp, if_pos hlt] at hbuy
          simp at hbuy
        · rw [buy_ok cache l sym shrs cp hg.1 hg.2 (not_le.mp hp) (not_lt.mp hlt)] at hbuy
          rw [Prod.mk.injEq] at hbuy
          obtain ⟨hl', _⟩ := hbuy
          subst hl'
          unfold ledgerValue
          rw [update_user_balance_portfolio,
            get_balance_some (update_user_balance_balanceRow_of_some (by exact hb0) _),
            get_balance_some hb0]
          dsimp only
          cases hpos : findPos l.portfolio sym with
          | none =>
            simp only [hpos]
            rw [posSum_append]
            ring
          | some pos =>
            simp only [hpos]
            rw [posSum_updatePos _ hnd hpos]
            have hps : 0 < pos.shares := hpospf (sym, pos) (alookup_mem (by exact hpos))
            have hne : pos.shares + shrs ≠ 0 := ne_of_gt (by linarith [hg.1])
            dsimp only
            have hmul : (pos.shares + shrs) *
                ((pos.avg_price * pos.shares + shrs * resolvePrice cache sym cp) /
                  (pos.shares + shrs)) =
                pos.avg_price * pos.shares + shrs * resolvePrice cache sym cp := by
              rw [mul_comm]
              exact div_mul_cancel₀ _ hne
            rw [hmul]
            ring
  · intro l' r hsell
    by_cases hg : shrs ≤ 0 ∨ sym = ""
    · unfold sell at hsell
      rw [if_pos hg] at hsell
      simp at hsell
    · push_neg at hg
      by_cases hp : resolvePrice cache sym cp ≤ 0
      · unfold sell at hsell
        rw [if_neg (trade_guard_false hg.1 hg.2)] at hsell
        simp only [if_pos hp] at hsell
        simp at hsell
      · cases hpos : findPos l.portfolio sym with
        | none =>
          unfold sell at hsell
          rw [if_neg (trade_guard_false hg.1 hg.2)] at hsell
          simp only [if_neg hp, hpos] at hsell
          simp at hsell
        | some pos =>
          by_cases hlt : pos.shares < shrs
          · unfold sell at hsell
            rw [if_neg (trade_guard_false hg.1 hg.2)] at hsell
            simp only [if_neg hp, hpos, if_pos hlt] at hsell
            simp at hsell
          · rw [sell_ok cache l sym shrs cp pos hg.1 hg.2 (not_le.mp hp) hpos
              (not_lt.mp hlt)] at hsell
            rw [Prod.mk.injEq] at hsell
            obtain ⟨hl', hok⟩ := hsell
            subst hl'
            injection hok with hr
            subst hr
            unfold ledgerValue
            rw [update_user_balance_portfolio,
              get_balance_some (update_user_balance_balanceRow_of_some (by exact hb0) _),
              get_balance_some hb0]
            dsimp only
            by_cases hz : pos.shares - shrs ≤ 0
            · rw [if_pos hz]
              rw [posSum_deletePos hnd hpos]
              have hsh_eq : pos.shares = shrs := le_antisymm (by linarith) (not_lt.mp hlt)
              rw [hsh_eq]
              ring
            · rw [if_neg hz]
              rw [posSum_updatePos _ hnd hpos]
              dsimp only
              ring
  · intro l' e hbuy
    by_cases hg : shrs ≤ 0 ∨ sym = ""
    · unfold buy at hbuy
      rw [if_pos hg] at hbuy
      rw [Prod.mk.injEq] at hbuy
      exact hbuy.1.symm
    · push_neg at hg
      by_cases hp : resolvePrice cache sym cp ≤ 0
      · unfold buy at hbuy
        rw [if_neg (trade_guard_false hg.1 hg.2)] at hbuy
        simp only [if_pos hp] at hbuy
        rw [Prod.mk.injEq] at hbuy
        exact hbuy.1.symm
      · by_cases hlt : get_balance l < shrs * resolvePrice cache sym cp
        · unfold buy at hbuy
          rw [if_neg (trade_guard_false hg.1 hg.2)] at hbuy
          simp only [if_neg hp, if_pos hlt] at hbuy
          rw [Prod.mk.injEq] at hbuy
          exact hbuy.1.symm
        · rw [buy_ok cache l sym shrs cp hg.1 hg.2 (not_le.mp hp) (not_lt.mp hlt)] at hbuy
          simp at hbuy
  · intro l' e hsell
    by_cases hg : shrs ≤ 0 ∨ sym = ""
    · unfold sell at hsell
      rw [if_pos hg] at hsell
      rw [Prod.mk.injEq] at hsell
      exact hsell.1.symm
    · push_neg at hg
      by_cases hp : resolvePrice cache sym cp ≤ 0
      · unfold sell at hsell
        rw [if_neg (trade_guard_false hg.1 hg.2)] at hsell
        simp only [if_pos hp] at hsell
        rw [Prod.mk.injEq] at hsell
        exact hsell.1.symm
      · cases hpos : findPos l.portfolio sym with
        | none =>
          unfold sell at hsell
          rw [if_neg (trade_guard_false hg.1 hg.2)] at hsell
          simp only [if_neg hp, hpos] at hsell
          rw [Prod.mk.injEq] at hsell
          exact hsell.1.symm
        | some pos =>
          by_cases hlt : pos.shares < shrs
          · unfold sell at hsell
            rw [if_neg (trade_guard_false hg.1 hg.2)] at hsell
            simp only [if_neg hp, hpos, if_pos hlt] at hsell
            rw [Prod.mk.injEq] at hsell
            exact hsell.1.symm
          · rw [sell_ok cache l sym shrs cp pos hg.1 hg.2 (not_le.mp hp) hpos
              (not_lt.mp hlt)] at hsell
            simp at hsell

theorem trade_conservation_witness :
    ledgerValue (update_user_balance
      { balanceRow := some 25000,
        portfolio := ([] : List (String × PortfolioPos)) ++
          [(("NABIL"), ⟨10, resolvePrice [] ("NABIL") 500⟩)],
        transactions := ([] : List TxRow) ++
          [⟨"NABIL", "BUY", 10, resolvePrice [] ("NABIL") 500,
            10 * resolvePrice [] ("NABIL") 500, 0⟩] }
      (get_balance ⟨some 25000, [], []⟩ - 10 * resolvePrice [] ("NABIL") 500)) =
    ledgerValue ⟨some 25000, [], []⟩ := by
  have hbuy := buy_ok [] ⟨some 25000, [], []⟩ ("NABIL") 10 500 (by norm_num) (by decide)
    (by rw [resolvePrice_nil]; norm_num)
    (by rw [resolvePrice_nil]; norm_num [get_balance])
  exact (trade_conservation [] ⟨some 25000, [], []⟩ ("NABIL") 10 500 rfl (by simp)
    (by simp)).1 _ _ hbuy

/-- C3 (counterexample to the claim as stated): a buy by an account
with no balance table row succeeds but increases
`balance + Σ shares × avgCost` by the full trade total, because the
position is added while the balance debit matches no stored row. -/
theorem conservation_counterexample :
    (buy [] ⟨none, [], []⟩ ("NABIL") 10 500).2 = .ok ⟨25000 - 10 * 500, 500⟩ ∧
    ledgerValue (buy [] ⟨none, [], []⟩ ("NABIL") 10 500).1 = 30000 ∧
    ledgerValue ⟨none, [], []⟩ = 25000 ∧
    ¬ ((30000 : ℚ) = 25000) := by
  have hbuy := buy_ok [] ⟨none, [], []⟩ ("NABIL") 10 500 (by norm_num) (by decide)
    (by rw [resolvePrice_nil]; norm_num)
    (by rw [resolvePrice_nil]; norm_num [get_balance, INITIAL_BALANCE])
  refine ⟨?_, ?_, ?_, by norm_num⟩
  · rw [hbuy]
    show Except.ok _ = Except.ok _
    rw [resolvePrice_nil]
    norm_num [Except.ok.injEq, BuyOk.mk.injEq, get_balance, INITIAL_BALANCE]
  · rw [hbuy]
    show ledgerValue (update_user_balance _ _) = 30000
    unfold ledgerValue
    rw [get_balance, update_user_balance_balanceRow_of_none rfl,
      update_user_balance_portfolio]
    show INITIAL_BALANCE + posSum ([] ++ [(("NABIL"),
      ⟨10, resolvePrice [] ("NABIL") 500⟩)]) = 30000
    rw [resolvePrice_nil]
    norm_num [INITIAL_BALANCE, posSum]
  · unfold ledgerValue
    norm_num [get_balance, INITIAL_BALANCE, posSum]

/-- C6: the fill price is resolved as cache entry for the raw symbol,
else cache entry for the symbol with dots replaced by hyphens, else the
caller-supplied price verbatim; and (for a request passing parameter
validation) the trade fails with `PriceUnavailable` exactly when the
resolved price is ≤ 0. -/
theorem price_resolution (cache : List (String × Quote)) (l : Ledger) (sym : String)
    (shrs cp : ℚ) (hsh : 0 < shrs) (hsym : sym ≠ "") :
    (∀ q, get_price cache sym = some q → resolvePrice cache sym cp = q.price) ∧
    (get_price cache sym = none →
      ∀ q, get_price cache (replaceDots sym) = some q →
        resolvePrice cache sym cp = q.price) ∧
    (get_price cache sym = none → get_price cache (replaceDots sym) = none →
      resolvePrice cache sym cp = cp) ∧
    ((buy cache l sym shrs cp).2 = .error .priceUnavailable ↔
      resolvePrice cache sym cp ≤ 0) ∧
    ((sell cache l sym shrs cp).2 = .error .priceUnavailable ↔
      resolvePrice cache sym cp ≤ 0) := by
  refine ⟨?_, ?_, ?_, ?_, ?_⟩
  · intro q h
    simp [resolvePrice, h, Option.orElse]
  · intro h q h2
    simp [resolvePrice, h, h2, Option.orElse]
  · intro h h2
    simp [resolvePrice, h, h2, Option.orElse]
  · constructor
    · intro hE
      by_contra hp
      rcases lt_or_le (get_balance l) (shrs * resolvePrice cache sym cp) with hlt | hge
      · unfold buy at hE
        rw [if_neg (trade_guard_false hsh hsym)] at hE
        simp only [if_neg hp, if_pos hlt] at hE
        simp at hE
      · rw [buy_ok cache l sym shrs cp hsh hsym (not_le.mp hp) hge] at hE
        simp at hE
    · intro hp
      unfold buy
      rw [if_neg (trade_guard_false hsh hsym)]
      simp only [if_pos hp]
  · constructor
    · intro hE
      by_contra hp
      rcases hpos : findPos l.portfolio sym with _ | pos
      · unfold sell at hE
        rw [if_neg (trade_guard_false hsh hsym)] at hE
        simp only [if_neg hp, hpos] at hE
        simp at hE
      · rcases lt_or_le pos.shares shrs with hlt | hge
        · unfold sell at hE
          rw [if_neg (trade_guard_false hsh hsym)] at hE
          simp only [if_neg hp, hpos, if_pos hlt] at hE
          simp at hE
        · rw [sell_ok cache l sym shrs cp pos hsh hsym (not_le.mp hp) hpos hge] at hE
          simp at hE
    · intro hp
      unfold sell
      rw [if_neg (trade_guard_false hsh hsym)]
      simp only [if_pos hp]

theorem price_resolution_witness :
    (resolvePrice [(("BRK-B"), ⟨"BRK-B", 100, 0, 0, 0, 100, 100, 100, 100⟩)]
        ("BRK.B") 7 = (100 : ℚ)) ∧
    ((buy [] ⟨some 25000, [], []⟩ ("NABIL") 1 0).2 = .error .priceUnavailable ↔
      resolvePrice [] ("NABIL") 0 ≤ 0) :=
  ⟨(price_resolution [(("BRK-B"), ⟨"BRK-B", 100, 0, 0, 0, 100, 100, 100, 100⟩)]
      ⟨some 25000, [], []⟩ ("BRK.B") 1 7 (by norm_num) (by decide)).2.1
      (by decide) ⟨"BRK-B", 100, 0, 0, 0, 100, 100, 100, 100⟩ (by decide),
   (price_resolution [] ⟨some 25000, [], []⟩ ("NABIL") 1 0 (by norm_num)
      (by decide)).2.2.2.1⟩

theorem sell_insufficient_shares_witness :
    sell [] ⟨some 25000, [("NABIL", ⟨3, 500⟩)], []⟩ ("NABIL") 10 500 =
      (⟨some 25000, [("NABIL", ⟨3, 500⟩)], []⟩, .error .insufficientShares) :=
  sell_insufficient_shares [] ⟨some 25000, [("NABIL", ⟨3, 500⟩)], []⟩ ("NABIL") 10 500
    (by norm_num) (by decide) (by rw [resolvePrice_nil]; norm_num)
    (Or.inr ⟨⟨3, 500⟩, rfl, by norm_num⟩)

/-- C7: on a refresh tick the NEPSE API adapter's result is used
whenever it is non-empty; the merolagani scrape result is consulted only
when the API result is empty; whichever snapshot is chosen is merged into
the cache symbol by symbol, leaving symbols absent from the snapshot
untouched; and when both results are empty the cache after the tick is
exactly the cache before it. -/
theorem refresh_tick (apiResults scrapeResults cache : List (String × Quote))
    (hndA : (apiResults.map Prod.fst).Nodup)
    (hndS : (scrapeResults.map Prod.fst).Nodup) :
    (apiResults ≠ [] →
      refresh_all_prices apiResults scrapeResults cache = dictUpdate cache apiResults) ∧
    (apiResults = [] → scrapeResults ≠ [] →
      refresh_all_prices apiResults scrapeResults cache = dictUpdate cache scrapeResults) ∧
    (apiResults = [] → scrapeResults = [] →
      refresh_all_prices apiResults scrapeResults cache = cache) ∧
    (∀ s, alookup (if apiResults.isEmpty then scrapeResults else apiResults) s = none →
      alookup (refresh_all_prices apiResults scrapeResults cache) s = alookup cache s) ∧
    (∀ s v, alookup (if apiResults.isEmpty then scrapeResults else apiResults) s = some v →
      alookup (refresh_all_prices apiResults scrapeResults cache) s = some v) := by
  cases apiResults with
  | cons a as =>
    refine ⟨fun _ => rfl, fun h => absurd h (List.cons_ne_nil a as),
      fun h _ => absurd h (List.cons_ne_nil a as), ?_, ?_⟩
    · intro s h
      exact alookup_dictUpdate_of_none _ (h : alookup (a :: as) s = none)
    · intro s v h
      exact alookup_dictUpdate_of_some _ hndA (h : alookup (a :: as) s = some v)
  | nil =>
    cases scrapeResults with
    | nil =>
      refine ⟨fun h => absurd rfl h, fun _ h => absurd rfl h, fun _ _ => rfl, ?_, ?_⟩
      · intro s _
        rfl
      · intro s v h
        exact absurd (h : alookup ([] : List (String × Quote)) s = some v)
          (by simp [alookup])
    | cons b bs =>
      refine ⟨fun h => absurd rfl h, fun _ _ => rfl,
        fun _ h => absurd h (List.cons_ne_nil b bs), ?_, ?_⟩
      · intro s h
        exact alookup_dictUpdate_of_none _ (h : alookup (b :: bs) s = none)
      · intro s v h
        exact alookup_dictUpdate_of_some _ hndS (h : alookup (b :: bs) s = some v)

theorem refresh_tick_witness :
    refresh_all_prices [(("A"), ⟨"A", 5, 0, 0, 0, 5, 5, 5, 5⟩)] [] [] =
      dictUpdate [] [(("A"), ⟨"A", 5, 0, 0, 0, 5, 5, 5, 5⟩)] ∧
    refresh_all_prices [] [] [(("A"), ⟨"A", 5, 0, 0, 0, 5, 5, 5, 5⟩)] =
      [(("A"), ⟨"A", 5, 0, 0, 0, 5, 5, 5, 5⟩)] :=
  ⟨(refresh_tick [(("A"), ⟨"A", 5, 0, 0, 0, 5, 5, 5, 5⟩)] [] [] (by simp) (by simp)).1
      (by simp),
   (refresh_tick [] [] [(("A"), ⟨"A", 5, 0, 0, 0, 5, 5, 5, 5⟩)] (by simp) (by simp)).2.2.1
      rfl rfl⟩

/-- What a successful `parseApiItem` guarantees about the produced entry. -/
theorem parseApiItem_some {item : ApiItem} {k : String} {v : Quote}
    (h : parseApiItem item = some (k, v)) :
    k = apiSym item ∧ apiSym item ≠ "" ∧ 0 < apiLtp item ∧
    v.change = round2 (round2 (apiLtp item - apiPrev item)) ∧
    v.changePercent = round2 (if apiPrev item = 0 then 0
      else round2 (apiLtp item - apiPrev item) / apiPrev item * 100) ∧
    v.prevClose = round2 (apiPrev item) := by
  simp only [parseApiItem] at h
  split at h
  · rename_i hcond
    rw [Option.some.injEq, Prod.mk.injEq] at h
    obtain ⟨hk, hv⟩ := h
    subst hk
    subst hv
    exact ⟨rfl, hcond.1, hcond.2, rfl, rfl, rfl⟩
  · simp at h

/-- What a successful `parseMRow` guarantees about the produced entry. -/
theorem parseMRow_some {r : MRow} {k : String} {v : Quote}
    (h : parseMRow r = some (k, v)) :
    ∃ lp c, r.ltpVal = some lp ∧ r.chgVal = some c ∧ 0 < lp ∧
      v.change = round2 c ∧
      v.changePercent = round2 (if lp - c = 0 then 0 else c / (lp - c) * 100) ∧
      v.prevClose = round2 (lp - c) := by
  cases r with
  | short => simp [parseMRow] at h
  | full sym ltpC highC lowC chgC volC =>
    simp only [parseMRow] at h
    cases hlt : ltpC.toFloat 0 with
    | none =>
      rw [hlt] at h
      simp at h
    | some lp =>
      rw [hlt] at h
      simp only [Option.bind_eq_bind', Option.some_bind] at h
      cases hcg : chgC.toFloat 0 with
      | none =>
        rw [hcg] at h
        simp at h
      | some c =>
        rw [hcg] at h
        simp only [Option.bind_eq_bind', Option.some_bind] at h
        cases hvl : volParse volC with
        | none =>
          rw [hvl] at h
          simp at h
        | some vol =>
          rw [hvl] at h
          simp only [Option.bind_eq_bind', Option.some_bind] at h
          cases hhi : highC.toFloat lp with
          | none =>
            rw [hhi] at h
            simp at h
          | some hi =>
            rw [hhi] at h
            simp only [Option.bind_eq_bind', Option.some_bind] at h
            cases hlo : lowC.toFloat lp with
            | none =>
              rw [hlo] at h
              simp at h
            | some lo =>
              rw [hlo] at h
              simp only [Option.bind_eq_bind', Option.some_bind] at h
              split at h
              · rename_i hcond
                rw [Option.some.injEq, Prod.mk.injEq] at h
                obtain ⟨hk, hv⟩ := h
                subst hk
                subst hv
                exact ⟨lp, c, by simp [MRow.ltpVal, hlt], by simp [MRow.chgVal, hcg],
                  hcond, rfl, rfl, rfl⟩
              · simp at h

/-- C8 (counterexample to the claim as stated): `fetch_merolagani`
never checks that the symbol cell is non-empty — a 6-column row with a
blank symbol and a positive last price produces an entry keyed by the
empty string. -/
theorem merolagani_empty_symbol_counterexample :
    (alookup (fetch_merolagani [MRow.full ("") (.val 5) .blank .blank .blank none])
      ("")).isSome = true := by
  have hparse : parseMRow (MRow.full ("") (.val 5) .blank .blank .blank none) =
      some (("") ,
        ⟨"", round2 5, round2 0, round2 (if (5 : ℚ) - 0 = 0 then 0 else 0 / (5 - 0) * 100),
          0, round2 5, round2 5, round2 (5 - 0), round2 (5 - 0)⟩) := by
    simp only [parseMRow, NumCell.toFloat, volParse, Option.bind_eq_bind', Option.some_bind]
    rw [if_pos (by norm_num : (0 : ℚ) < 5)]
  simp only [fetch_merolagani, buildDict, List.foldl_cons, List.foldl_nil, hparse]
  rw [alookup_dictInsert, if_pos rfl]
  rfl

/-- C8 (amended): every entry of `fetch_nepse_api` comes from an item
whose normalized symbol is non-empty and whose parsed last price is > 0;
every entry of `fetch_merolagani` comes from a row whose parsed last
price is > 0 — but the merolagani adapter does not require a non-empty
symbol. -/
theorem adapter_acceptance (items : List ApiItem) (rows : List MRow)
    (k : String) (v : Quote) :
    (alookup (fetch_nepse_api items) k = some v →
      k ≠ "" ∧ ∃ it ∈ items, parseApiItem it = some (k, v) ∧ 0 < apiLtp it) ∧
    (alookup (fetch_merolagani rows) k = some v →
      ∃ r ∈ rows, parseMRow r = some (k, v) ∧
        ∃ lp, r.ltpVal = some lp ∧ 0 < lp) := by
  constructor
  · intro h
    obtain ⟨it, hit, hp⟩ := mem_buildDict (alookup_mem h)
    obtain ⟨hk, hsym, hltp, _⟩ := parseApiItem_some hp
    exact ⟨hk ▸ hsym, it, hit, hp, hltp⟩
  · intro h
    obtain ⟨r, hr, hp⟩ := mem_buildDict (alookup_mem h)
    obtain ⟨lp, c, hlp, _, hpos, _⟩ := parseMRow_some hp
    exact ⟨r, hr, hp, lp, hlp, hpos⟩

theorem adapter_acceptance_witness :
    (("NABIL") : String) ≠ "" ∧
    ∃ it ∈ ([⟨some ("NABIL"), none, some 100, none, none, some 99, none,
        none, none, none, none⟩] : List ApiItem),
      parseApiItem it = some (("NABIL"),
        ⟨"NABIL", round2 100, round2 (round2 (100 - 99)),
          round2 (round2 (100 - 99) / 99 * 100), 0,
          round2 100, round2 100, round2 99, round2 99⟩) ∧ 0 < apiLtp it := by
  have hsym : apiSym ⟨some ("NABIL"), none, some 100, none, none, some 99, none,
      none, none, none, none⟩ = ("NABIL") := by
    simp [apiSym, truthyS]
  have hltp : apiLtp ⟨some ("NABIL"), none, some 100, none, none, some 99, none,
      none, none, none, none⟩ = 100 := by
    norm_num [apiLtp, truthyQ]
  have hprev : apiPrev ⟨some ("NABIL"), none, some 100, none, none, some 99, none,
      none, none, none, none⟩ = 99 := by
    norm_num [apiPrev, truthyQ]
  have hparse : parseApiItem ⟨some ("NABIL"), none, some 100, none, none, some 99, none,
      none, none, none, none⟩ = some (("NABIL"),
        ⟨"NABIL", round2 100, round2 (round2 (100 - 99)),
          round2 (round2 (100 - 99) / 99 * 100), 0,
          round2 100, round2 100, round2 99, round2 99⟩) := by
    simp only [parseApiItem, hsym, hltp, hprev]
    rw [if_pos (⟨by simp, by norm_num⟩ : _ ∧ _)]
    rw [if_neg (by norm_num : ¬ (99 : ℚ) = 0)]
    norm_num [truthyQ, truthyZ]
  exact (adapter_acceptance
    [⟨some ("NABIL"), none, some 100, none, none, some 99, none,
        none, none, none, none⟩] []
    ("NABIL")
    ⟨"NABIL", round2 100, round2 (round2 (100 - 99)),
      round2 (round2 (100 - 99) / 99 * 100), 0,
      round2 100, round2 100, round2 99, round2 99⟩).1
    (by
      simp only [fetch_nepse_api, buildDict, List.foldl_cons, List.foldl_nil, hparse]
      rw [alookup_dictInsert, if_pos rfl])

/-- C9 (amended): in both adapters the reported change is the price
difference rounded to 2 decimals, `round2(last − prev)`, not the exact
difference; the reported change percent is `X / prev × 100` rounded to 2
decimals — with `X` the rounded change for the NEPSE API adapter and the
raw change column (the exact difference) for the merolagani adapter —
and is 0 when the previous close is 0; the reported previous close is
`round2 prev`. -/
theorem adapter_change_formulas (item : ApiItem) (r : MRow) (k k' : String)
    (v w : Quote) :
    (parseApiItem item = some (k, v) →
      v.change = round2 (apiLtp item - apiPrev item) ∧
      v.changePercent = round2 (if apiPrev item = 0 then 0
        else round2 (apiLtp item - apiPrev item) / apiPrev item * 100) ∧
      v.prevClose = round2 (apiPrev item)) ∧
    (parseMRow r = some (k', w) →
      ∃ lp c, r.ltpVal = some lp ∧ r.chgVal = some c ∧
        w.change = round2 (lp - (lp - c)) ∧
        w.changePercent = round2 (if lp - c = 0 then 0
          else (lp - (lp - c)) / (lp - c) * 100) ∧
        w.prevClose = round2 (lp - c)) := by
  constructor
  · intro h
    obtain ⟨_, _, _, hch, hcp, hpc⟩ := parseApiItem_some h
    rw [round2_round2] at hch
    exact ⟨hch, hcp, hpc⟩
  · intro h
    obtain ⟨lp, c, hlp, hc, _, hch, hcp, hpc⟩ := parseMRow_some h
    refine ⟨lp, c, hlp, hc, ?_, ?_, hpc⟩
    · rw [show lp - (lp - c) = c from by ring]
      exact hch
    · rw [show lp - (lp - c) = c from by ring]
      exact hcp

theorem adapter_change_formulas_witness :
    ∃ lp c,
      (MRow.full ("X") (.val 10) .blank .blank (.val 1) none).ltpVal = some lp ∧
      (MRow.full ("X") (.val 10) .blank .blank (.val 1) none).chgVal = some c ∧
      (⟨"X", round2 10, round2 1,
        round2 (if (10 : ℚ) - 1 = 0 then 0 else 1 / (10 - 1) * 100),
        0, round2 10, round2 10, round2 (10 - 1), round2 (10 - 1)⟩ : Quote).change =
          round2 (lp - (lp - c)) ∧
      (⟨"X", round2 10, round2 1,
        round2 (if (10 : ℚ) - 1 = 0 then 0 else 1 / (10 - 1) * 100),
        0, round2 10, round2 10, round2 (10 - 1), round2 (10 - 1)⟩ : Quote).changePercent =
          round2 (if lp - c = 0 then 0 else (lp - (lp - c)) / (lp - c) * 100) ∧
      (⟨"X", round2 10, round2 1,
        round2 (if (10 : ℚ) - 1 = 0 then 0 else 1 / (10 - 1) * 100),
        0, round2 10, round2 10, round2 (10 - 1), round2 (10 - 1)⟩ : Quote).prevClose =
          round2 (lp - c) := by
  have hparse : parseMRow (MRow.full ("X") (.val 10) .blank .blank (.val 1) none) =
      some (("X"),
        ⟨"X", round2 10, round2 1,
          round2 (if (10 : ℚ) - 1 = 0 then 0 else 1 / (10 - 1) * 100),
          0, round2 10, round2 10, round2 (10 - 1), round2 (10 - 1)⟩) := by
    simp only [parseMRow, NumCell.toFloat, volParse, Option.bind_eq_bind', Option.some_bind]
    rw [if_pos (by norm_num : (0 : ℚ) < 10)]
  exact (adapter_change_formulas ⟨none, none, none, none, none, none, none, none,
    none, none, none⟩ (MRow.full ("X") (.val 10) .blank .blank (.val 1) none)
    ("") ("X") ⟨"", 0, 0, 0, 0, 0, 0, 0, 0⟩
    ⟨"X", round2 10, round2 1,
      round2 (if (10 : ℚ) - 1 = 0 then 0 else 1 / (10 - 1) * 100),
      0, round2 10, round2 10, round2 (10 - 1), round2 (10 - 1)⟩).2 hparse

/-- C9 (counterexample to the claim as stated): with last price
`1.014` and previous close `1.006` the NEPSE adapter reports
change `0.01` (rounded), while the exact difference
`last − prev = 0.008`; the reported change does not equal the price
difference. -/
theorem change_not_exact_counterexample :
    parseApiItem ⟨some ("A"), none, some (1014/1000), none, none,
        some (1006/1000), none, none, none, none, none⟩ = some (("A"),
        ⟨"A", round2 (507/500), round2 (round2 (507/500 - 503/500)),
          round2 (round2 (507/500 - 503/500) / (503/500) * 100), 0,
          round2 (507/500), round2 (507/500), round2 (503/500), round2 (503/500)⟩) ∧
      round2 (round2 (507/500 - 503/500)) = 1/100 ∧
      apiLtp ⟨some ("A"), none, some (1014/1000), none, none,
        some (1006/1000), none, none, none, none, none⟩ -
        apiPrev ⟨some ("A"), none, some (1014/1000), none, none,
          some (1006/1000), none, none, none, none, none⟩ = 1/125 ∧
      ¬ ((1 : ℚ)/100 = 1/125) := by
  have hsym : apiSym ⟨some ("A"), none, some (1014/1000), none, none,
      some (1006/1000), none, none, none, none, none⟩ = ("A") := by
    simp [apiSym, truthyS]
  have hltp : apiLtp ⟨some ("A"), none, some (1014/1000), none, none,
      some (1006/1000), none, none, none, none, none⟩ = 507/500 := by
    norm_num [apiLtp, truthyQ]
  have hprev : apiPrev ⟨some ("A"), none, some (1014/1000), none, none,
      some (1006/1000), none, none, none, none, none⟩ = 503/500 := by
    norm_num [apiPrev, truthyQ]
  have hparse : parseApiItem ⟨some ("A"), none, some (1014/1000), none, none,
      some (1006/1000), none, none, none, none, none⟩ = some (("A"),
        ⟨"A", round2 (507/500), round2 (round2 (507/500 - 503/500)),
          round2 (round2 (507/500 - 503/500) / (503/500) * 100), 0,
          round2 (507/500), round2 (507/500), round2 (503/500), round2 (503/500)⟩) := by
    simp only [parseApiItem, hsym, hltp, hprev]
    rw [if_pos (⟨by simp, by norm_num⟩ : _ ∧ _)]
    rw [if_neg (by norm_num : ¬ (503 : ℚ)/500 = 0)]
    norm_num [truthyQ, truthyZ]
  refine ⟨hparse, ?_, ?_, by norm_num⟩
  · norm_num [round2, roundHalfEven]
  · rw [hltp, hprev]
    norm_num

end Finaura
